import Mathlib

/-!
# Verification of the `SearchIndex` core (local file search service)

A shallow embedding of the indexing-and-ranking engine implemented in
`src/services/search/index.ts` (class `SearchIndex`), together with the build
lifecycle of `buildIndex` and the observable states it exposes.

Modelling conventions:
* JavaScript strings are modelled as `List Char` (`JStr`); the string
  operations used by the source (`toLowerCase`, `trim`, `indexOf`,
  `lastIndexOf`, `substring`, `slice`, `includes`, `split`) are modelled
  character-exactly for the ASCII fragment (`Char.toLower` is the
  basic-latin lowering, matching `String.prototype.toLowerCase` on ASCII;
  the JS whitespace class is modelled by its ASCII members).
* JavaScript numbers that the source uses as integers (sizes, timestamps,
  indices, option values) are modelled as `Int`/`Nat`; fractional scores are
  modelled as `ℚ` (all score arithmetic in the source stays well inside the
  range where binary floating point is exact for these operations' orderings).
* The external collaborators are parameters: the Fuse.js filename matcher is
  a function `JStr → List FuseResult`; the JavaScript `RegExp` engine is an
  oracle `JStr → JStr → Option Nat` giving the number of `'g'`-flag matches
  of a pattern in a text, with `none` modelling a thrown `SyntaxError`;
  `mcpService.listFiles`/`readFile` are `Except`-valued inputs to the build.
* Code that can throw is modelled in `Except Unit`.
-/

/-- JavaScript strings, modelled as lists of characters. -/
abbrev JStr := List Char

/-- Embed a Lean string literal as a `JStr`. -/
def js (s : String) : JStr := s.data

/-- The JavaScript whitespace class `\s` (and `trim`'s class), restricted to
its ASCII members: tab, LF, VT, FF, CR, space. -/
def isJsWs (c : Char) : Bool :=
  c.toNat = 9 || c.toNat = 10 || c.toNat = 11 || c.toNat = 12 || c.toNat = 13 || c.toNat = 32

/-- Model of `String.prototype.toLowerCase` (ASCII fragment): lower every
character with the basic-latin lowering. -/
def jsToLower (s : JStr) : JStr := s.map Char.toLower

/-- Model of `String.prototype.trim`: drop leading and trailing whitespace. -/
def jsTrim (s : JStr) : JStr :=
  ((s.dropWhile isJsWs).reverse.dropWhile isJsWs).reverse

/-- Does `pat` match at the head of `l` (i.e. is `pat` an initial segment)? -/
def headMatch : JStr → JStr → Bool
  | [], _ => true
  | _ :: _, [] => false
  | a :: as, b :: bs => a = b && headMatch as bs

/-- First position (0-based) at which `pat` matches in `l`, if any. -/
def indexOfAux (pat : JStr) : JStr → Option Nat
  | [] => if headMatch pat [] then some 0 else none
  | c :: rest =>
    if headMatch pat (c :: rest) then some 0
    else (indexOfAux pat rest).map (· + 1)

/-- Model of `String.prototype.indexOf(pat, start)` (returning `none` for
`-1`): the first match position at or after `start`. -/
def jsIndexOfFrom (s pat : JStr) (start : Nat) : Option Nat :=
  (indexOfAux pat (s.drop start)).map (· + min start s.length)

/-- Model of `String.prototype.includes`: `sub` occurs somewhere in `s`. -/
def jsIncludes (s sub : JStr) : Bool :=
  (jsIndexOfFrom s sub 0).isSome

/-- Model of `String.prototype.lastIndexOf(c)` for a single-character needle,
returning `-1` when absent, as in JavaScript. -/
def jsLastIndexOfChar (s : JStr) (c : Char) : Int :=
  match s.reverse.findIdx? (· = c) with
  | none => -1
  | some j => (s.length : Int) - 1 - (j : Int)

/-- Model of `String.prototype.substring(a, b)`: clamp both arguments into
`[0, length]`, then swap them if necessary. -/
def jsSubstring (s : JStr) (a b : Int) : JStr :=
  let len : Int := s.length
  let a' := min (max a 0) len
  let b' := min (max b 0) len
  let lo := min a' b'
  let hi := max a' b'
  (s.drop lo.toNat).take (hi - lo).toNat

/-- Model of `Array.prototype.slice(a, b)` / `String.prototype.slice(a, b)`:
negative arguments count from the end; no swapping. -/
def jsSliceList {α : Type} (s : List α) (a b : Int) : List α :=
  let len : Int := s.length
  let a' := if a < 0 then max (len + a) 0 else min a len
  let b' := if b < 0 then max (len + b) 0 else min b len
  (s.drop a'.toNat).take (b' - a').toNat

/-- Split a list at every element satisfying `p` (the separators are dropped,
empty segments kept), as in a single-character-class `split`. -/
def splitCharsP (p : Char → Bool) : JStr → List JStr
  | [] => [[]]
  | c :: rest =>
    if p c then [] :: splitCharsP p rest
    else
      match splitCharsP p rest with
      | [] => [[c]]
      | g :: gs => (c :: g) :: gs

/-- The tokenisation used by the source for partial matching:
`q.split(/\s+/).filter(w => w.length > 2)`.  Splitting on single whitespace
characters and filtering is extensionally the `/\s+/` split followed by the
same filter, since every segment of length `> 2` is a maximal
non-whitespace run. -/
def queryWordsOf (q : JStr) : List JStr :=
  (splitCharsP isJsWs q).filter (fun w => 2 < w.length)

/-- Model of `x || d` for an optional integer option field: JavaScript
treats `undefined` and `0` as falsy (negative numbers are truthy). -/
def jsOrInt (x : Option Int) (d : Int) : Int :=
  match x with
  | none => d
  | some v => if v = 0 then d else v

/-- Length (if any) of the greedy match of the regular expression `/\n\s*\n/`
at the head of `l`: a newline, then the longest whitespace run whose last
consumed character can be followed by a closing newline. -/
def paraSepLen (l : JStr) : Option Nat :=
  match l with
  | [] => none
  | c :: rest =>
    if c = '\n' then
      let run := rest.takeWhile isJsWs
      match run.reverse.findIdx? (· = '\n') with
      | none => none
      | some j => some (run.length - 1 - j + 2)
    else none

/-- Model of `content.split(/\n\s*\n/)`: scan left to right, cutting at each
(leftmost, greedy) match of the separator. `acc` holds the current segment,
reversed.  `fuel` bounds the number of scan steps structurally; each step
consumes at least one character (`paraSepLen_pos`), so the `l.length` fuel
supplied by `splitParas` is never exhausted. -/
def splitParasAux (fuel : Nat) (acc : JStr) (l : JStr) : List JStr :=
  match fuel with
  | 0 => [acc.reverse ++ l]
  | fuel + 1 =>
    match paraSepLen l with
    | some n => acc.reverse :: splitParasAux fuel [] (l.drop n)
    | none =>
      match l with
      | [] => [acc.reverse]
      | c :: rest => splitParasAux fuel (c :: acc) rest

/-- `content.split(/\n\s*\n/)`. -/
def splitParas (l : JStr) : List JStr := splitParasAux (l.length + 1) [] l

/-- Model of node `path.basename` for POSIX paths: strip trailing
separators, then take the part after the last separator. -/
def jsBasename (s : JStr) : JStr :=
  let t := (s.reverse.dropWhile (fun c => c = '/')).reverse
  (t.reverse.takeWhile (fun c => c ≠ '/')).reverse

/-- Model of node `path.extname` applied to a basename: the suffix from the
last `'.'`, except that a leading dot or the name `".."` yields `""`. -/
def jsExtname (s : JStr) : JStr :=
  match s.reverse.findIdx? (· = '.') with
  | none => []
  | some j =>
    let i := s.length - 1 - j
    if i = 0 then [] else if s = ['.', '.'] then [] else s.drop i

/-- The regex metacharacters of JavaScript `RegExp` source syntax. -/
def regexMeta : JStr := ['\\', '^', '$', '.', '|', '?', '*', '+', '(', ')', '[', ']', '{', '}']

/-- Number of matches of the literal pattern `p` in `s` at or after `start`,
scanning left to right and resuming after each match, as
`s.match(new RegExp(p, 'g'))` does for a metacharacter-free `p`. -/
def countOccFrom (p s : JStr) : Nat → Nat → Nat
  | _, 0 => 0
  | start, fuel + 1 =>
    if p = [] then 0
    else
      match jsIndexOfFrom s p start with
      | none => 0
      | some idx => 1 + countOccFrom p s (idx + p.length) fuel

/-- `countOccFrom` with the fuel it needs: every step advances `start` by at
least one (`jsIndexOfFrom_bounds`), so `s.length + 1` scan steps suffice. -/
def countOcc (p s : JStr) : Nat := countOccFrom p s 0 (s.length + 1)

/-- Model of the `RegExp` collaborator as used by the source (the pattern is
the raw, un-escaped query): for a metacharacter-free pattern, `new RegExp(p,
'g')` compiles and matching counts non-overlapping literal occurrences; for
a pattern containing metacharacters we conservatively model a thrown
`SyntaxError` (`none`) — faithful at the inputs exercised here, e.g. the
pattern `"a("`, whose unmatched group is a `SyntaxError` in JavaScript. -/
def jsRegexCountModel (p s : JStr) : Option Nat :=
  if p.all (fun c => ¬ regexMeta.contains c) then some (countOcc p s) else none

/-! ## Data model (`BasicIndexEntry`, `SnippetMatch`, `SearchResult`) -/

/-- The four match strategies, in priority order. -/
inductive MatchType where
  | exact
  | fuzzy
  | path
  | content
deriving DecidableEq

/-- A snippet located inside a document (`SnippetMatch` in the source). -/
structure SnippetMatch where
  text : JStr
  score : ℚ
  position : Int
deriving DecidableEq

/-- One indexed file (`BasicIndexEntry` in the source); `content` is the
optional extracted text. -/
structure BasicIndexEntry where
  path : JStr
  filename : JStr
  lastModified : Int
  size : Int
  content : Option JStr := none
deriving DecidableEq

/-- One result of the Fuse.js filename matcher (`includeScore: true`):
the matched item and its native distance in `[0, 1]` (0 = perfect). -/
structure FuseResult where
  item : JStr
  score : ℚ
deriving DecidableEq

/-- A scored search result (`SearchResult` in the source), still carrying
`content` (it is stripped at the `search` boundary). -/
structure SearchResult where
  path : JStr
  filename : JStr
  lastModified : Int
  size : Int
  content : Option JStr
  score : ℚ
  matchType : MatchType
  snippets : Option (List SnippetMatch)
deriving DecidableEq

/-- A search result as returned to callers: `Omit<SearchResult, 'content'>`. -/
structure SearchHit where
  path : JStr
  filename : JStr
  lastModified : Int
  size : Int
  score : ℚ
  matchType : MatchType
  snippets : Option (List SnippetMatch)
deriving DecidableEq

/-- `SearchOptions` of the source; `none` models an absent field. -/
structure SearchOptions where
  fileTypes : Option (List JStr) := none
  snippetContextSize : Option Int := none
  maxSnippets : Option Int := none

/-- The `fuseOptions.threshold` constant of the source (`0.4`): Fuse.js
returns only candidates whose native score is at most this. -/
def fuseThreshold : ℚ := 0.4

/-- The Fuse.js collaborator: the filename index's `search` method. -/
abbrev FuseFn := JStr → List FuseResult

/-- The `RegExp` match-count collaborator: `(text.match(new RegExp(pat,
'g')) || []).length`, `none` modelling a thrown `SyntaxError`. -/
abbrev RegexOracle := JStr → JStr → Option Nat

def dots : JStr := ['.', '.', '.']

/-! ## Snippet extraction (`extractSnippets`, lines 57–195 of the source) -/

/-- The exact-phrase pass of `extractSnippets` (the `while` loop over
`normalizedContent.indexOf(normalizedQuery, lastIndex)`): every occurrence
of the query yields a context snippet whose score combines position,
in-snippet term count (via the regex oracle) and a flat exact-match bonus.
A thrown `SyntaxError` from the un-escaped regex is `.error ()`.
(The source would loop forever on an empty query; no call site passes one,
and the model returns `[]` there.) -/
def exactPassF (oracle : RegexOracle) (content nc query : JStr) (cs : Int) :
    Nat → Nat → Except Unit (List SnippetMatch)
  | _, 0 => .ok []
  | start, fuel + 1 =>
    if query = [] then .ok []
    else
      match jsIndexOfFrom nc (jsToLower query) start with
      | none => .ok []
      | some idx =>
        let snippetStart : Int := max 0 ((idx : Int) - cs)
        let snippetEnd : Int := min (content.length : Int) ((idx : Int) + (query.length : Int) + cs)
        let snip0 := jsSubstring content snippetStart snippetEnd
        let snip1 := if 0 < snippetStart then dots ++ snip0 else snip0
        let snip2 := if snippetEnd < (content.length : Int) then snip1 ++ dots else snip1
        match oracle (jsToLower query) (jsToLower snip2) with
        | none => .error ()
        | some termCount =>
          let positionScore : ℚ := 1 - (idx : ℚ) / (content.length : ℚ)
          let score : ℚ := positionScore + (termCount : ℚ) * 0.2 + 0.5
          match exactPassF oracle content nc query cs (idx + query.length) fuel with
          | .error e => .error e
          | .ok rest => .ok ({ text := snip2, score := score, position := (idx : Int) } :: rest)

/-- The exact-phrase pass with the fuel it needs: every iteration advances
`lastIndex` by `query.length ≥ 1` (`jsIndexOfFrom_bounds`), so `nc.length +
1` iterations suffice for a non-empty query. -/
def exactPass (oracle : RegexOracle) (content nc query : JStr) (cs : Int)
    (start : Nat) : Except Unit (List SnippetMatch) :=
  exactPassF oracle content nc query cs start (nc.length + 1)

/-- One paragraph of the token pass of `extractSnippets` (the `for` loop
over blank-line paragraphs): 0.2 per matching query word plus a positional
bonus; long paragraphs are windowed around the first matching word. -/
def paraSnippet (queryWords : List JStr) (nParas : Nat) (cs : Int)
    (i : Nat) (para : JStr) : Option SnippetMatch :=
  if (jsTrim para).length = 0 then none
  else
    let paraLower := jsToLower para
    let matched := queryWords.filter (fun w => jsIncludes paraLower w)
    if matched.isEmpty then none
    else
      let matchScore : ℚ := (matched.length : ℚ) * 0.2
      let snippet :=
        if (cs * 3 : Int) < (para.length : Int) then
          let found := queryWords.filterMap (fun w => jsIndexOfFrom paraLower w 0)
          -- `firstMatchPos` starts at `Infinity`; under the `hasMatch` guard
          -- at least one word was found, so the default is never used.
          let firstMatchPos : Nat := (found.min?).getD 0
          let snippetStart : Int := max 0 ((firstMatchPos : Int) - cs)
          let snippetEnd : Int := min (para.length : Int) ((firstMatchPos : Int) + cs * 2)
          let s0 := jsSubstring para snippetStart snippetEnd
          let s1 := if 0 < snippetStart then dots ++ s0 else s0
          if snippetEnd < (para.length : Int) then s1 ++ dots else s1
        else para
      let positionScore : ℚ := 1 - ((i : ℚ) / (nParas : ℚ)) * 0.3
      some { text := snippet, score := matchScore + positionScore, position := (i : Int) * 1000 }

/-- The token pass over all paragraphs (`content.split(/\n\s*\n/)`). -/
def paraPass (queryWords : List JStr) (content : JStr) (cs : Int) : List SnippetMatch :=
  let paras := splitParas content
  paras.enum.filterMap (fun p => paraSnippet queryWords paras.length cs p.1 p.2)

/-- The representative fallback of `extractSnippets`: the first up to three
non-empty paragraphs, truncated, with scores 0.3, 0.2, 0.1. -/
def fallbackSnippets (content : JStr) (cs : Int) : List SnippetMatch :=
  let sections := (splitParas content).filter (fun s => 0 < (jsTrim s).length)
  let representative := jsSliceList sections 0 (min 3 (sections.length : Int))
  representative.enum.map (fun p =>
    let snippet :=
      if (cs * 2 : Int) < (p.2.length : Int) then jsSubstring p.2 0 (cs * 2) ++ dots else p.2
    { text := snippet, score := (0.3 : ℚ) - (p.1 : ℚ) * 0.1, position := (p.1 : Int) * 1000 })

/-- The candidate snippets accumulated by `extractSnippets` before
de-duplication: the exact-phrase pass, then (if it produced nothing or
fewer than `maxSnippets`) the token pass, then (if still nothing) the
representative fallback. -/
def snippetCandidates (oracle : RegexOracle) (content query : JStr)
    (maxSnippets cs : Int) : Except Unit (List SnippetMatch) :=
  match exactPass oracle content (jsToLower content) query cs 0 with
  | .error e => .error e
  | .ok tier1 =>
    let queryWords := queryWordsOf (jsToLower query)
    let m2 :=
      if tier1.isEmpty || decide ((tier1.length : Int) < maxSnippets) then
        tier1 ++ paraPass queryWords content cs
      else tier1
    .ok (if m2.isEmpty then m2 ++ fallbackSnippets content cs else m2)

/-- The source's duplicate test (lines 179–184): identical text, or
positions within `contextSize / 2` with both texts non-empty and one text a
substring of the other. -/
def isDuplicateOf (cs : Int) (existing m : SnippetMatch) : Bool :=
  decide (existing.text = m.text) ||
  (decide ((((existing.position - m.position).natAbs : ℚ)) < (cs : ℚ) / 2) &&
   decide (0 < existing.text.length) && decide (0 < m.text.length) &&
   (jsIncludes existing.text m.text || jsIncludes m.text existing.text))

/-- First-survivor de-duplication: keep a candidate iff it is not a
duplicate of an already-kept one. -/
def dedupSnippetsAux (cs : Int) (uniq : List SnippetMatch) :
    List SnippetMatch → List SnippetMatch
  | [] => uniq
  | m :: rest =>
    if uniq.any (fun e => isDuplicateOf cs e m) then dedupSnippetsAux cs uniq rest
    else dedupSnippetsAux cs (uniq ++ [m]) rest

def dedupSnippets (cs : Int) (ms : List SnippetMatch) : List SnippetMatch :=
  dedupSnippetsAux cs [] ms

/-- Sort order of the final snippet sort `(a, b) => b.score - a.score`:
score descending (stable, as JavaScript's sort). -/
def snLe (a b : SnippetMatch) : Prop := b.score ≤ a.score

instance : DecidableRel snLe := fun a b => inferInstanceAs (Decidable (b.score ≤ a.score))

instance : IsTotal SnippetMatch snLe := ⟨fun a b => le_total b.score a.score⟩

instance : IsTrans SnippetMatch snLe := ⟨fun _ _ _ hab hbc => le_trans hbc hab⟩

/-- `extractSnippets(content, query, maxSnippets, contextSize)`: guard
against empty content, gather candidates, de-duplicate, sort by score
descending, truncate to `maxSnippets`. -/
def extractSnippets (oracle : RegexOracle) (content query : JStr)
    (maxSnippets cs : Int) : Except Unit (List SnippetMatch) :=
  if content.isEmpty || decide ((jsTrim content).length = 0) then .ok []
  else
    match snippetCandidates oracle content query maxSnippets cs with
    | .error e => .error e
    | .ok cands =>
      .ok (jsSliceList (List.insertionSort snLe (dedupSnippets cs cands)) 0 maxSnippets)

/-! ## Scoring (`calculateScore`, lines 197–292 of the source) -/

/-- `{ ...entry, score, matchType, snippets }`. -/
def mkResult (entry : BasicIndexEntry) (score : ℚ) (mt : MatchType)
    (snippets : Option (List SnippetMatch)) : SearchResult :=
  { path := entry.path, filename := entry.filename, lastModified := entry.lastModified,
    size := entry.size, content := entry.content, score := score, matchType := mt,
    snippets := snippets }

/-- `calculateScore(entry, query, options)`: try exact filename, fuzzy
filename, path containment, then the three content branches, in that
order; `none` when no rule applies.  `.error ()` models the `SyntaxError`
thrown by the un-escaped `new RegExp(query, 'g')`. -/
def calculateScore (fuse : FuseFn) (oracle : RegexOracle) (entry : BasicIndexEntry)
    (query : JStr) (snippetContextSize maxSnippets : Option Int) :
    Except Unit (Option SearchResult) :=
  let normalizedQuery := jsToLower query
  let filename := jsToLower entry.filename
  let filenameWithoutExt := jsSubstring filename 0 (jsLastIndexOfChar filename '.')
  let pathLower := jsToLower entry.path
  let content := match entry.content with | some c => jsToLower c | none => []
  -- Exact filename match (highest priority)
  if filenameWithoutExt = normalizedQuery then
    .ok (some (mkResult entry 1 .exact none))
  else
    -- Fuzzy filename match
    match (fuse normalizedQuery).find? (fun r => r.item = entry.filename) with
    | some filenameMatch =>
      let fuseScore : ℚ := 1 - filenameMatch.score
      .ok (some (mkResult entry (0.6 + fuseScore * 0.3) .fuzzy none))
    | none =>
      -- Path contains query
      let pathWithoutFilename :=
        jsSubstring pathLower 0 ((pathLower.length : Int) - (filename.length : Int))
      if jsIncludes pathWithoutFilename normalizedQuery then
        .ok (some (mkResult entry 0.5 .path none))
      else if content.isEmpty then .ok none
      else
        -- Content contains query or parts of the query
        match extractSnippets oracle (entry.content.getD []) query
            (jsOrInt maxSnippets 3) (jsOrInt snippetContextSize 60) with
        | .error e => .error e
        | .ok snippets =>
          if jsIncludes content normalizedQuery then
            match oracle normalizedQuery content with
            | none => .error ()
            | some occurrences =>
              let score : ℚ := min (0.3 + (occurrences : ℚ) * 0.1) 0.4
              .ok (some (mkResult entry score .content
                (if snippets.isEmpty then none else some snippets)))
          else
            let queryWords := queryWordsOf normalizedQuery
            let matchingWords := queryWords.filter (fun w => jsIncludes content w)
            if 0 < queryWords.length ∧ 0 < matchingWords.length then
              let matchRatio : ℚ := (matchingWords.length : ℚ) / (queryWords.length : ℚ)
              let score : ℚ := min (0.2 + matchRatio * 0.2) 0.35
              .ok (some (mkResult entry score .content
                (if snippets.isEmpty then none else some snippets)))
            else if ¬ snippets.isEmpty then
              .ok (some (mkResult entry 0.15 .content (some snippets)))
            else .ok none

/-! ## Query engine (`search`, lines 354–400 of the source) -/

/-- The file-type filter of `search` (lines 366–371): with a non-empty
`fileTypes` list, keep an entry iff `path.extname(filename).toLowerCase().
slice(1)` is a member of the list. -/
def passesFileTypeFilter (fileTypes : Option (List JStr)) (filename : JStr) : Bool :=
  match fileTypes with
  | none => true
  | some fts =>
    if 0 < fts.length then fts.contains ((jsToLower (jsExtname filename)).drop 1)
    else true

/-- The result-collection loop of `search`: iterate the store's entries in
order, apply the file-type filter, score each entry, keep the hits. -/
def collectResults (fuse : FuseFn) (oracle : RegexOracle) (opts : SearchOptions)
    (nq : JStr) : List BasicIndexEntry → Except Unit (List SearchResult)
  | [] => .ok []
  | entry :: rest =>
    if passesFileTypeFilter opts.fileTypes entry.filename then
      match calculateScore fuse oracle entry nq
          (some (jsOrInt opts.snippetContextSize 60)) (some (jsOrInt opts.maxSnippets 3)) with
      | .error e => .error e
      | .ok r? =>
        match collectResults fuse oracle opts nq rest with
        | .error e => .error e
        | .ok rest' =>
          match r? with
          | some r => .ok (r :: rest')
          | none => .ok rest'
    else collectResults fuse oracle opts nq rest

/-- Sort order of the final result sort (lines 384–390): score descending,
ties broken by `lastModified` descending (stable, as JavaScript's sort). -/
def resultLE (a b : SearchResult) : Prop :=
  b.score < a.score ∨ (a.score = b.score ∧ b.lastModified ≤ a.lastModified)

instance : DecidableRel resultLE := fun a b =>
  inferInstanceAs (Decidable (b.score < a.score ∨ (a.score = b.score ∧ b.lastModified ≤ a.lastModified)))

instance : IsTotal SearchResult resultLE where
  total a b := by
    unfold resultLE
    rcases lt_trichotomy a.score b.score with h | h | h
    · exact Or.inr (Or.inl h)
    · rcases le_total b.lastModified a.lastModified with h' | h'
      · exact Or.inl (Or.inr ⟨h, h'⟩)
      · exact Or.inr (Or.inr ⟨h.symm, h'⟩)
    · exact Or.inl (Or.inl h)

instance : IsTrans SearchResult resultLE where
  trans a b c hab hbc := by
    unfold resultLE at *
    rcases hab with h1 | ⟨h1, h1'⟩ <;> rcases hbc with h2 | ⟨h2, h2'⟩
    · exact Or.inl (lt_trans h2 h1)
    · exact Or.inl (h2 ▸ h1)
    · exact Or.inl (h1 ▸ h2)
    · exact Or.inr ⟨h1.trans h2, le_trans h2' h1'⟩

/-- `({ content, ...rest }) => rest`: strip `content` before returning. -/
def stripContent (r : SearchResult) : SearchHit :=
  { path := r.path, filename := r.filename, lastModified := r.lastModified,
    size := r.size, score := r.score, matchType := r.matchType, snippets := r.snippets }

/-- `search(query, options)` over the store's entries (the values of
`memoryIndex`, in insertion order): normalize the query, return `[]` when it
has fewer than 2 significant characters, otherwise score all surviving
entries, sort, truncate to 10, and strip `content`. -/
def searchIdx (fuse : FuseFn) (oracle : RegexOracle) (entries : List BasicIndexEntry)
    (query : JStr) (opts : SearchOptions) : Except Unit (List SearchHit) :=
  let normalizedQuery := jsTrim (jsToLower query)
  if normalizedQuery.isEmpty || decide (normalizedQuery.length < 2) then .ok []
  else
    match collectResults fuse oracle opts normalizedQuery entries with
    | .error e => .error e
    | .ok results =>
      .ok ((jsSliceList (List.insertionSort resultLE results) 0 10).map stripContent)

/-! ## Build lifecycle (`buildIndex`, lines 294–352, and `getStats`) -/

/-- `MCPFileContent` as consumed by `buildIndex`: extracted text (possibly
empty), byte size and modification time. -/
structure FileInfo where
  content : JStr
  size : Int
  lastModified : Int
deriving DecidableEq

/-- The mutable state of a `SearchIndex` instance: the `memoryIndex` map
(association list in insertion order), the filename set underlying the Fuse
index, and the `isIndexing` flag. -/
structure IndexState where
  store : List (JStr × BasicIndexEntry)
  fuseNames : List JStr
  isIndexing : Bool
deriving DecidableEq

/-- `new SearchIndex()`. -/
def initialState : IndexState := { store := [], fuseNames := [], isIndexing := false }

/-- `getStats()`: `{ totalFiles: memoryIndex.size, isIndexing }`. -/
def getStats (s : IndexState) : Nat × Bool := (s.store.length, s.isIndexing)

/-- `memoryIndex.set(path, entry)`: replace in place or append. -/
def setEntry (store : List (JStr × BasicIndexEntry)) (k : JStr) (v : BasicIndexEntry) :
    List (JStr × BasicIndexEntry) :=
  match store with
  | [] => [(k, v)]
  | (k', v') :: rest => if k' = k then (k, v) :: rest else (k', v') :: setEntry rest k v

/-- The entry built for one file (lines 317–328): the basename, metadata,
and `content` only when the extracted text is non-empty. -/
def mkBuildEntry (filePath : JStr) (info : FileInfo) : BasicIndexEntry :=
  { path := filePath, filename := jsBasename filePath, lastModified := info.lastModified,
    size := info.size,
    content := if info.content.isEmpty then none else some info.content }

/-- Result of the per-file loop of `buildIndex`. -/
structure LoopOut where
  /-- The states observable at each `await readFile` suspension point (the
  store has already been cleared and holds the entries inserted so far; the
  Fuse index is still the previous generation's). -/
  trace : List IndexState
  /-- The store contents when the loop stops (complete on success,
  whatever was inserted so far on failure). -/
  acc : List (JStr × BasicIndexEntry)
  /-- The filenames pushed so far, for the Fuse rebuild. -/
  names : List JStr
  outcome : Except Unit Unit

/-- The `for (const filePath of files)` loop of `buildIndex`: each iteration
awaits `readFile` (an observation point), then inserts the entry.  A
rejection from `readFile` aborts the loop (there is no per-file `try`). -/
def buildLoop (readFile : JStr → Except Unit FileInfo) (fuse0 : List JStr)
    (acc : List (JStr × BasicIndexEntry)) (names : List JStr) :
    List JStr → LoopOut
  | [] => { trace := [], acc := acc, names := names, outcome := .ok () }
  | f :: rest =>
    let obs : IndexState := { store := acc, fuseNames := fuse0, isIndexing := true }
    match readFile f with
    | .error e => { trace := [obs], acc := acc, names := names, outcome := .error e }
    | .ok info =>
      let out := buildLoop readFile fuse0 (setEntry acc f (mkBuildEntry f info))
        (names ++ [jsBasename f]) rest
      { out with trace := obs :: out.trace }

/-- `buildIndex()` as a function of the collaborator responses: returns the
observable states at each `await` suspension point (in order), the settled
promise, and the final state.  If a build is already in flight the call is a
no-op.  The store is cleared only after `listFiles` resolves; on success the
Fuse index is rebuilt from the collected filenames and `isIndexing` is reset
in the same synchronous segment; the `finally` clears `isIndexing` on every
path. -/
def runBuild (listFiles : Except Unit (List JStr))
    (readFile : JStr → Except Unit FileInfo) (s0 : IndexState) :
    List IndexState × Except Unit Unit × IndexState :=
  if s0.isIndexing then ([], .ok (), s0)
  else
    let s1 : IndexState := { s0 with isIndexing := true }
    match listFiles with
    | .error e => ([s1], .error e, { s1 with isIndexing := false })
    | .ok files =>
      let out := buildLoop readFile s0.fuseNames [] [] files
      match out.outcome with
      | .error e =>
        (s1 :: out.trace, .error e,
          { store := out.acc, fuseNames := s0.fuseNames, isIndexing := false })
      | .ok _ =>
        (s1 :: out.trace, .ok (),
          { store := out.acc, fuseNames := out.names, isIndexing := false })


/-! ## Observation helpers and spec-side definitions -/

/-- `memoryIndex.get(path)`: association-list lookup in the store. -/
def lookupStore : List (JStr × BasicIndexEntry) → JStr → Option BasicIndexEntry
  | [], _ => none
  | (k, v) :: rest, k' => if k = k' then some v else lookupStore rest k'

/-- The store obtained by processing `files` in order from `init`,
inserting the entry for every file whose read succeeds. -/
def storeOverFrom (readFile : JStr → Except Unit FileInfo)
    (init : List (JStr × BasicIndexEntry)) (files : List JStr) :
    List (JStr × BasicIndexEntry) :=
  files.foldl
    (fun st f =>
      match readFile f with
      | .ok info => setEntry st f (mkBuildEntry f info)
      | .error _ => st)
    init

/-- The store obtained by processing `files` from the cleared (empty) store. -/
def storeOver (readFile : JStr → Except Unit FileInfo) (files : List JStr) :
    List (JStr × BasicIndexEntry) :=
  storeOverFrom readFile [] files

/-- The spec's wording of the snippet duplicate test: "their text is
identical, or their positions are within `contextSize/2` of each other and
one snippet's text is a substring of the other's". -/
def specIsDuplicate (cs : Int) (a b : SnippetMatch) : Bool :=
  decide (a.text = b.text) ||
  (decide (((a.position - b.position).natAbs : ℚ) < (cs : ℚ) / 2) &&
   (jsIncludes a.text b.text || jsIncludes b.text a.text))

/-- The spec's wording of de-duplication: "only the first encountered is
kept" — keep a candidate iff it is not a duplicate of an already-kept one. -/
def specDedupAux (cs : Int) (kept : List SnippetMatch) :
    List SnippetMatch → List SnippetMatch
  | [] => kept
  | m :: rest =>
    if kept.any (fun e => specIsDuplicate cs e m) then specDedupAux cs kept rest
    else specDedupAux cs (kept ++ [m]) rest

def specDedup (cs : Int) (ms : List SnippetMatch) : List SnippetMatch :=
  specDedupAux cs [] ms

/-- The score band each match type must lie in (spec §3, Invariants). -/
def scoreBandsOf (mt : MatchType) (score : ℚ) : Prop :=
  (mt = .exact → score = 1) ∧
  (mt = .fuzzy → 0.6 < score ∧ score ≤ 0.9) ∧
  (mt = .path → score = 0.5) ∧
  (mt = .content → 0.15 ≤ score ∧ score ≤ 0.4)

/-- Priority rank of a match type: `exact > fuzzy > path > content`. -/
def mtRank : MatchType → Nat
  | .exact => 3
  | .fuzzy => 2
  | .path => 1
  | .content => 0

/-! ## Concrete fixtures used by witnesses and counterexamples -/

/-- A Fuse matcher returning no candidates for any query. -/
def emptyFuse : FuseFn := fun _ => []

def entryTest1 : BasicIndexEntry :=
  { path := js "/downloads/test1.txt", filename := js "test1.txt",
    lastModified := 100, size := 1000, content := none }

/-- A filename with no extension separator at all. -/
def entryReadme : BasicIndexEntry :=
  { path := js "/p/readme", filename := js "readme",
    lastModified := 0, size := 0, content := none }

/-- An entry whose extracted content contains the literal text `"a("`. -/
def entryNotes : BasicIndexEntry :=
  { path := js "/d/notes.txt", filename := js "notes.txt", lastModified := 5, size := 10,
    content := some (js "see a(x) here") }

def fileA : JStr := js "/d/a.txt"

def fileB : JStr := js "/d/b.txt"

/-- A successful read whose extraction produced no text (`content: ''`). -/
def infoEmptyContent : FileInfo := { content := [], size := 1, lastModified := 7 }

def readFileOk : JStr → Except Unit FileInfo := fun _ => .ok infoEmptyContent

/-- A reader that raises (I/O failure) for `fileA` only. -/
def readFileFailA : JStr → Except Unit FileInfo :=
  fun f => if f = fileA then .error () else .ok infoEmptyContent

/-- A reader that raises (I/O failure) for `fileB` only. -/
def readFileFailB : JStr → Except Unit FileInfo :=
  fun f => if f = fileB then .error () else .ok infoEmptyContent

/-- A previously completed generation holding three entries. -/
def priorGen : IndexState :=
  { store :=
      [(js "/old/1", { path := js "/old/1", filename := js "1", lastModified := 1, size := 1 }),
       (js "/old/2", { path := js "/old/2", filename := js "2", lastModified := 2, size := 1 }),
       (js "/old/3", { path := js "/old/3", filename := js "3", lastModified := 3, size := 1 })],
    fuseNames := [js "1", js "2", js "3"], isIndexing := false }

/-! ## Supporting lemmas about the string primitives -/

theorem paraSepLen_pos {l : JStr} {n : Nat} (h : paraSepLen l = some n) : 0 < n := by
  unfold paraSepLen at h
  cases l with
  | nil => simp at h
  | cons c rest =>
    simp only at h
    split at h
    · split at h
      · exact absurd h (by simp)
      · simp only [Option.some.injEq] at h
        omega
    · exact absurd h (by simp)

theorem headMatch_length {pat l : JStr} (h : headMatch pat l = true) :
    pat.length ≤ l.length := by
  induction pat generalizing l with
  | nil => simp
  | cons a as ih =>
    cases l with
    | nil => simp [headMatch] at h
    | cons b bs =>
      simp only [headMatch, Bool.and_eq_true] at h
      simpa using ih h.2

theorem indexOfAux_le {pat l : JStr} {j : Nat} (h : indexOfAux pat l = some j) :
    j + pat.length ≤ l.length := by
  induction l generalizing j with
  | nil =>
    unfold indexOfAux at h
    split at h
    · rename_i hm
      cases h
      simpa using headMatch_length hm
    · simp at h
  | cons c rest ih =>
    unfold indexOfAux at h
    split at h
    · rename_i hm
      cases h
      simpa using headMatch_length hm
    · simp only [Option.map_eq_some'] at h
      obtain ⟨j', hj', rfl⟩ := h
      have := ih hj'
      simp only [List.length_cons]
      omega

theorem jsIndexOfFrom_bounds {s pat : JStr} {start idx : Nat}
    (hpat : pat ≠ []) (h : jsIndexOfFrom s pat start = some idx) :
    start ≤ idx ∧ idx + pat.length ≤ s.length := by
  unfold jsIndexOfFrom at h
  simp only [Option.map_eq_some'] at h
  obtain ⟨j, hj, rfl⟩ := h
  have hb := indexOfAux_le hj
  have hplen : 0 < pat.length := List.length_pos.mpr hpat
  rw [List.length_drop] at hb
  have hstart : start < s.length := by
    by_contra hge
    push_neg at hge
    omega
  rw [Nat.min_eq_left (Nat.le_of_lt hstart)]
  omega

theorem length_jsToLower (s : JStr) : (jsToLower s).length = s.length := by
  simp [jsToLower]

theorem jsToLower_ne_nil {s : JStr} (h : s ≠ []) : jsToLower s ≠ [] := by
  intro hc
  apply h
  have := length_jsToLower s
  rw [hc] at this
  exact List.length_eq_zero.mp this.symm

theorem toNat_charOfNat_valid {n : Nat} (h : n.isValidChar) :
    (Char.ofNat n).toNat = n := by
  unfold Char.ofNat
  rw [dif_pos h]
  rfl

theorem isJsWs_toLower (c : Char) : isJsWs c.toLower = isJsWs c := by
  unfold Char.toLower
  by_cases h : c.toNat ≥ 65 ∧ c.toNat ≤ 90
  · rw [if_pos h]
    have hv : (c.toNat + 32).isValidChar := Or.inl (by omega)
    have ht := toNat_charOfNat_valid hv
    have h65 := h.1
    have h90 := h.2
    have hL : isJsWs (Char.ofNat (c.toNat + 32)) = false := by
      unfold isJsWs
      rw [ht]
      simp only [Bool.or_eq_false_iff, decide_eq_false_iff_not]
      omega
    have hR : isJsWs c = false := by
      unfold isJsWs
      simp only [Bool.or_eq_false_iff, decide_eq_false_iff_not]
      omega
    rw [hL, hR]
  · rw [if_neg h]

theorem dropWhile_isJsWs_jsToLower (l : JStr) :
    (jsToLower l).dropWhile isJsWs = jsToLower (l.dropWhile isJsWs) := by
  induction l with
  | nil => rfl
  | cons c rest ih =>
    simp only [jsToLower, List.map_cons, List.dropWhile_cons, isJsWs_toLower]
    by_cases h : isJsWs c = true
    · rw [if_pos h, if_pos h]
      exact ih
    · rw [if_neg h, if_neg h]
      rfl

theorem reverse_jsToLower (l : JStr) :
    (jsToLower l).reverse = jsToLower l.reverse := by
  simp [jsToLower]

theorem jsTrim_jsToLower (l : JStr) :
    jsTrim (jsToLower l) = jsToLower (jsTrim l) := by
  unfold jsTrim
  rw [dropWhile_isJsWs_jsToLower, reverse_jsToLower, dropWhile_isJsWs_jsToLower,
    reverse_jsToLower]

theorem length_jsTrim_jsToLower (l : JStr) :
    (jsTrim (jsToLower l)).length = (jsTrim l).length := by
  rw [jsTrim_jsToLower, length_jsToLower]
/-! ## Lemmas about the build lifecycle -/

theorem lookupStore_setEntry_self (st : List (JStr × BasicIndexEntry)) (k : JStr)
    (v : BasicIndexEntry) : lookupStore (setEntry st k v) k = some v := by
  induction st with
  | nil => simp [setEntry, lookupStore]
  | cons p rest ih =>
    obtain ⟨k', v'⟩ := p
    by_cases h : k' = k
    · simp [setEntry, h, lookupStore]
    · simp only [setEntry, if_neg h, lookupStore]
      exact ih

theorem lookupStore_setEntry_ne (st : List (JStr × BasicIndexEntry)) (k g : JStr)
    (v : BasicIndexEntry) (h : k ≠ g) :
    lookupStore (setEntry st k v) g = lookupStore st g := by
  induction st with
  | nil => simp [setEntry, lookupStore, h]
  | cons p rest ih =>
    obtain ⟨k', v'⟩ := p
    by_cases hk : k' = k
    · subst hk
      simp [setEntry, lookupStore, h]
    · simp only [setEntry, if_neg hk, lookupStore]
      by_cases hg : k' = g
      · rw [if_pos hg, if_pos hg]
      · rw [if_neg hg, if_neg hg]
        exact ih

theorem storeOverFrom_lookup (rf : JStr → Except Unit FileInfo) (files : List JStr)
    (g : JStr) (info : FileInfo) (hg : rf g = .ok info) :
    ∀ init : List (JStr × BasicIndexEntry),
      (g ∈ files ∨ lookupStore init g = some (mkBuildEntry g info)) →
      lookupStore (storeOverFrom rf init files) g = some (mkBuildEntry g info) := by
  induction files with
  | nil =>
    intro init h
    rcases h with h | h
    · cases h
    · exact h
  | cons f fs ih =>
    intro init h
    by_cases hf : ∃ i, rf f = .ok i
    · obtain ⟨i, hi⟩ := hf
      have hstep : storeOverFrom rf init (f :: fs)
          = storeOverFrom rf (setEntry init f (mkBuildEntry f i)) fs := by
        simp [storeOverFrom, List.foldl_cons, hi]
      rw [hstep]
      apply ih
      by_cases hgf : g = f
      · subst hgf
        right
        have : i = info := by
          rw [hg] at hi
          exact (Except.ok.injEq _ _ ▸ hi.symm : _)
        rw [this, lookupStore_setEntry_self]
      · rcases h with h | h
        · rcases List.mem_cons.mp h with h' | h'
          · exact absurd h'.symm (fun hh => hgf hh.symm)
          · exact Or.inl h'
        · right
          rw [lookupStore_setEntry_ne _ _ _ _ (fun hh => hgf hh.symm)]
          exact h
    · push_neg at hf
      have hstep : storeOverFrom rf init (f :: fs) = storeOverFrom rf init fs := by
        simp only [storeOverFrom, List.foldl_cons]
        cases hrf : rf f with
        | ok i => exact absurd hrf (hf i)
        | error e => rfl
      rw [hstep]
      apply ih
      by_cases hgf : g = f
      · subst hgf
        exact absurd hg (hf info)
      · rcases h with h | h
        · rcases List.mem_cons.mp h with h' | h'
          · exact absurd h'.symm (fun hh => hgf hh.symm)
          · exact Or.inl h'
        · exact Or.inr h

theorem buildLoop_ok_spec (rf : JStr → Except Unit FileInfo) (fuse0 : List JStr)
    (files : List JStr) (hok : ∀ f ∈ files, ∃ i, rf f = .ok i) :
    ∀ acc names,
      (buildLoop rf fuse0 acc names files).outcome = .ok () ∧
      (buildLoop rf fuse0 acc names files).acc = storeOverFrom rf acc files ∧
      (buildLoop rf fuse0 acc names files).trace
        = (List.range files.length).map (fun k =>
            { store := storeOverFrom rf acc (files.take k), fuseNames := fuse0,
              isIndexing := true }) := by
  induction files with
  | nil => intro acc names; refine ⟨rfl, rfl, rfl⟩
  | cons f fs ih =>
    intro acc names
    obtain ⟨i, hi⟩ := hok f (List.mem_cons_self f fs)
    have hok' : ∀ g ∈ fs, ∃ j, rf g = .ok j := fun g hg => hok g (List.mem_cons_of_mem f hg)
    have hstep : buildLoop rf fuse0 acc names (f :: fs)
        = { buildLoop rf fuse0 (setEntry acc f (mkBuildEntry f i)) (names ++ [jsBasename f]) fs with
            trace := { store := acc, fuseNames := fuse0, isIndexing := true }
              :: (buildLoop rf fuse0 (setEntry acc f (mkBuildEntry f i))
                    (names ++ [jsBasename f]) fs).trace } := by
      simp [buildLoop, hi]
    obtain ⟨h1, h2, h3⟩ := ih hok' (setEntry acc f (mkBuildEntry f i)) (names ++ [jsBasename f])
    refine ⟨by rw [hstep]; exact h1, ?_, ?_⟩
    · rw [hstep]
      simpa [storeOverFrom, List.foldl_cons, hi] using h2
    · have hhead : ({ store := acc, fuseNames := fuse0, isIndexing := true } : IndexState)
          = { store := storeOverFrom rf acc (List.take 0 (f :: fs)), fuseNames := fuse0,
              isIndexing := true } := by
        simp [storeOverFrom]
      have htail :
          (buildLoop rf fuse0 (setEntry acc f (mkBuildEntry f i)) (names ++ [jsBasename f]) fs).trace
          = List.map
              ((fun k => ({ store := storeOverFrom rf acc (List.take k (f :: fs)),
                            fuseNames := fuse0, isIndexing := true } : IndexState)) ∘ Nat.succ)
              (List.range fs.length) := by
        rw [h3]
        apply List.map_congr_left
        intro k _
        simp only [Function.comp_apply, List.take_succ_cons]
        congr 1
        simp [storeOverFrom, List.foldl_cons, hi]
      rw [hstep]
      show ({ store := acc, fuseNames := fuse0, isIndexing := true } : IndexState)
          :: (buildLoop rf fuse0 (setEntry acc f (mkBuildEntry f i))
                (names ++ [jsBasename f]) fs).trace = _
      rw [htail, hhead]
      simp only [List.length_cons, List.range_succ_eq_map, List.map_cons, List.map_map]

/-! ## Claims about the build lifecycle (C2, C3, C6) -/

/-- C2 (amended): a `buildIndex` run that fails during file **enumeration**
(`listFiles` rejects) leaves the content store, the Fuse filename set and
the `isIndexing` flag at their prior complete generation, and every state
observable while that build is in flight shows the prior store.  (As the
counterexample shows, a failure during per-file reading instead leaves the
store cleared and partially repopulated, because the source mutates the
live store in place.) -/
theorem c2_enumeration_failure_keeps_prior_store (s0 : IndexState) (e : Unit)
    (readFile : JStr → Except Unit FileInfo) (h0 : s0.isIndexing = false) :
    (runBuild (.error e) readFile s0).2.1 = .error e ∧
    (runBuild (.error e) readFile s0).2.2.store = s0.store ∧
    (runBuild (.error e) readFile s0).2.2.fuseNames = s0.fuseNames ∧
    (runBuild (.error e) readFile s0).2.2.isIndexing = false ∧
    ∀ s ∈ (runBuild (.error e) readFile s0).1, s.store = s0.store := by
  unfold runBuild
  rw [if_neg (by simp [h0])]
  refine ⟨rfl, rfl, rfl, rfl, ?_⟩
  intro s hs
  simp only [List.mem_singleton] at hs
  rw [hs]

/-- Witness for C2 at a concrete input: enumeration failure over a
three-entry prior generation leaves all three entries queryable. -/
theorem c2_enumeration_failure_keeps_prior_store_witness :
    priorGen.isIndexing = false ∧
    (runBuild (.error ()) readFileOk priorGen).2.1 = .error () ∧
    (runBuild (.error ()) readFileOk priorGen).2.2.store = priorGen.store := by
  have h := c2_enumeration_failure_keeps_prior_store priorGen () readFileOk rfl
  exact ⟨rfl, h.1, h.2.1⟩

/-- Counterexample to C2 as stated: a build over two files whose second
read rejects makes the whole build fail, yet the final store holds exactly
one entry — neither the prior complete generation (3 entries) nor the new
complete one (2 entries) — and an observation point during the build
already shows a cleared, partially repopulated store. -/
theorem c2_counterexample :
    (runBuild (.ok [fileA, fileB]) readFileFailB priorGen).2.1 = .error () ∧
    (getStats (runBuild (.ok [fileA, fileB]) readFileFailB priorGen).2.2).1 = 1 ∧
    (getStats priorGen).1 = 3 ∧
    (runBuild (.ok [fileA, fileB]) readFileOk priorGen).2.2.store.length = 2 ∧
    ((runBuild (.ok [fileA, fileB]) readFileFailB priorGen).1.map
      (fun s => (getStats s).1)) = [3, 0, 1] := by
  refine ⟨rfl, rfl, rfl, ?_, ?_⟩ <;> decide

/-- C3 (amended): an extraction failure that the collaborator reports by
resolving with **empty content** is non-fatal: the entry is still indexed
with `content` absent and the build continues over all paths and completes.
A `readFile` **rejection**, however, is not caught per-file: it aborts the
build, and the entry for the failing path is not inserted (see the
counterexample). -/
theorem c3_empty_extraction_nonfatal (s0 : IndexState) (files : List JStr)
    (readFile : JStr → Except Unit FileInfo) (h0 : s0.isIndexing = false)
    (hok : ∀ f ∈ files, ∃ i, readFile f = .ok i) :
    (runBuild (.ok files) readFile s0).2.1 = .ok () ∧
    ∀ f ∈ files, ∀ info, readFile f = .ok info →
      lookupStore (runBuild (.ok files) readFile s0).2.2.store f
        = some (mkBuildEntry f info) := by
  obtain ⟨hout, hacc, -⟩ := buildLoop_ok_spec readFile s0.fuseNames files hok [] []
  unfold runBuild
  rw [if_neg (by simp [h0])]
  simp only [hout]
  refine ⟨by trivial, ?_⟩
  intro f hf info hinfo
  show lookupStore (buildLoop readFile s0.fuseNames [] [] files).acc f = _
  rw [hacc]
  exact storeOverFrom_lookup readFile files f info hinfo [] (Or.inl hf)

/-- Witness for C3 at a concrete input: one file whose extraction yields
empty text is indexed with `content = none` and the build succeeds. -/
theorem c3_empty_extraction_nonfatal_witness :
    (runBuild (.ok [fileA]) readFileOk initialState).2.1 = .ok () ∧
    lookupStore (runBuild (.ok [fileA]) readFileOk initialState).2.2.store fileA
      = some (mkBuildEntry fileA infoEmptyContent) := by
  have h := c3_empty_extraction_nonfatal initialState [fileA] readFileOk rfl
    (fun f _ => ⟨infoEmptyContent, rfl⟩)
  exact ⟨h.1, h.2 fileA (List.mem_singleton.mpr rfl) infoEmptyContent rfl⟩

/-- Counterexample to C3 as stated: when `readFile` **raises** for the
single path `fileA`, the build's promise rejects, the entry for `fileA` is
not inserted (`content` absent or otherwise), and the remaining path
`fileB` is never processed — the final store is empty. -/
theorem c3_counterexample :
    (runBuild (.ok [fileA, fileB]) readFileFailA initialState).2.1 = .error () ∧
    (runBuild (.ok [fileA, fileB]) readFileFailA initialState).2.2.store = [] := by
  exact ⟨rfl, rfl⟩

/-- C6 (amended): only the first observation point of a build — while
`listFiles` is still pending — shows the previous completed generation's
`totalFiles`; once the file list is obtained the store is cleared in place,
and each later observation point (awaiting the `k+1`-st `readFile`) shows
the intermediate count of the partially repopulated store, namely the
entries for the first `k` files. -/
theorem c6_stats_during_build (s0 : IndexState) (files : List JStr)
    (readFile : JStr → Except Unit FileInfo) (h0 : s0.isIndexing = false)
    (hok : ∀ f ∈ files, ∃ i, readFile f = .ok i) :
    (runBuild (.ok files) readFile s0).1
      = { s0 with isIndexing := true }
        :: (List.range files.length).map (fun k =>
            { store := storeOver readFile (files.take k), fuseNames := s0.fuseNames,
              isIndexing := true }) := by
  obtain ⟨hout, -, htrace⟩ := buildLoop_ok_spec readFile s0.fuseNames files hok [] []
  unfold runBuild
  rw [if_neg (by simp [h0])]
  simp only [hout]
  show ({ s0 with isIndexing := true } : IndexState)
      :: (buildLoop readFile s0.fuseNames [] [] files).trace = _
  rw [htrace]
  rfl

/-- Witness for C6 at a concrete input: a build over two files starting
from a three-entry prior generation exposes the observable stores
`[prior, ∅, {fileA}]` at its three suspension points. -/
theorem c6_stats_during_build_witness :
    (runBuild (.ok [fileA, fileB]) readFileOk priorGen).1
      = { priorGen with isIndexing := true }
        :: (List.range 2).map (fun k =>
            { store := storeOver readFileOk ([fileA, fileB].take k),
              fuseNames := priorGen.fuseNames, isIndexing := true }) :=
  c6_stats_during_build priorGen [fileA, fileB] readFileOk rfl
    (fun f _ => ⟨infoEmptyContent, rfl⟩)

/-- Counterexample to C6 as stated: during a successful build over two
files from a three-entry prior generation, the observation point reached
after the first file's read reports `totalFiles = 1` — an intermediate
count of the partially repopulated store, not the prior generation's 3. -/
theorem c6_counterexample :
    (getStats priorGen).1 = 3 ∧
    ((runBuild (.ok [fileA, fileB]) readFileOk priorGen).1.map
        (fun s => (getStats s).1)) = [3, 0, 1] ∧
    (runBuild (.ok [fileA, fileB]) readFileOk priorGen).2.2.store.length = 2 := by
  refine ⟨rfl, ?_, ?_⟩ <;> decide

/-! ## Claims about the query engine: C7 (short queries) and C10 (totality) -/

/-- C7: for every query with fewer than 2 significant characters after
trimming (in particular the empty and whitespace-only strings), `search`
returns the empty sequence, for every index state, matcher, oracle and
options. -/
theorem c7_short_query_returns_empty (fuse : FuseFn) (oracle : RegexOracle)
    (entries : List BasicIndexEntry) (query : JStr) (opts : SearchOptions)
    (h : (jsTrim query).length < 2) :
    searchIdx fuse oracle entries query opts = .ok [] := by
  have hlen := length_jsTrim_jsToLower query
  have hcond : ((jsTrim (jsToLower query)).isEmpty
      || decide ((jsTrim (jsToLower query)).length < 2)) = true := by
    have : (jsTrim (jsToLower query)).length < 2 := by omega
    simp [this]
  unfold searchIdx
  rw [if_pos hcond]

/-- Witness for C7 at a concrete input: the query `" a "` trims to one
significant character and returns no results over a non-empty store. -/
theorem c7_short_query_returns_empty_witness :
    (jsTrim (js " a ")).length < 2 ∧
    searchIdx emptyFuse jsRegexCountModel [entryTest1] (js " a ") {} = .ok [] :=
  ⟨by decide,
    c7_short_query_returns_empty emptyFuse jsRegexCountModel [entryTest1] (js " a ") {}
      (by decide)⟩

/-- C10: the code evaluated at the failing input.  The query `"a("` has 2
significant characters, and the literal text `"a("` occurs in the indexed
entry's content, so the content branch builds `new RegExp("a(", 'g')` from
the un-escaped query — a `SyntaxError` in JavaScript — and `search` raises
instead of returning a result sequence.  `search` is therefore not total,
contradicting the claim. -/
theorem c10_unescaped_regex_raises :
    (jsTrim (js "a(")).length = 2 ∧
    jsIncludes (js "see a(x) here") (js "a(") = true ∧
    searchIdx emptyFuse jsRegexCountModel [entryNotes] (js "a(") {} = .error () := by
  refine ⟨by decide, by decide, rfl⟩

/-! ## Lemmas about the query engine -/

theorem jsSliceList_zero {α : Type} (l : List α) (n : Int) (hn : 0 ≤ n) :
    jsSliceList l 0 n = l.take n.toNat := by
  have hlen : (0 : Int) ≤ (l.length : Int) := Int.natCast_nonneg _
  show (l.drop (if (0 : Int) < 0 then max ((l.length : Int) + 0) 0
          else min 0 (l.length : Int)).toNat).take
        ((if n < 0 then max ((l.length : Int) + n) 0 else min n (l.length : Int))
          - (if (0 : Int) < 0 then max ((l.length : Int) + 0) 0
              else min 0 (l.length : Int))).toNat
      = l.take n.toNat
  rw [if_neg (by omega), if_neg (by omega)]
  have hmin0 : min (0 : Int) (l.length : Int) = 0 := min_eq_left hlen
  rw [hmin0]
  simp only [Int.toNat_zero, List.drop_zero, Int.sub_zero]
  rcases le_total n (l.length : Int) with hc | hc
  · rw [min_eq_left hc]
  · rw [min_eq_right hc]
    rw [Int.toNat_natCast, List.take_length, List.take_of_length_le]
    have := Int.toNat_le_toNat hc
    simpa using this

theorem searchIdx_ok_elim {fuse : FuseFn} {oracle : RegexOracle}
    {entries : List BasicIndexEntry} {query : JStr} {opts : SearchOptions}
    {l : List SearchHit} (h : searchIdx fuse oracle entries query opts = .ok l) :
    l = [] ∨ ∃ results,
      collectResults fuse oracle opts (jsTrim (jsToLower query)) entries = .ok results ∧
      l = (jsSliceList (List.insertionSort resultLE results) 0 10).map stripContent := by
  unfold searchIdx at h
  dsimp only at h
  split at h
  · left
    simpa using h.symm
  · split at h
    · exact absurd h (by simp)
    · right
      rename_i results hres
      refine ⟨results, hres, by simpa using h.symm⟩

theorem collectResults_mem {fuse : FuseFn} {oracle : RegexOracle} {opts : SearchOptions}
    {nq : JStr} {entries : List BasicIndexEntry} {l : List SearchResult}
    (h : collectResults fuse oracle opts nq entries = .ok l) :
    ∀ r ∈ l, ∃ entry ∈ entries,
      passesFileTypeFilter opts.fileTypes entry.filename = true ∧
      calculateScore fuse oracle entry nq
        (some (jsOrInt opts.snippetContextSize 60)) (some (jsOrInt opts.maxSnippets 3))
        = .ok (some r) := by
  induction entries generalizing l with
  | nil =>
    intro r hr
    unfold collectResults at h
    simp only [Except.ok.injEq] at h
    rw [← h] at hr
    cases hr
  | cons e rest ih =>
    intro r hr
    unfold collectResults at h
    split at h
    · rename_i hpass
      split at h
      · exact absurd h (by simp)
      · rename_i r? hcalc
        split at h
        · exact absurd h (by simp)
        · rename_i rest' hrest
          split at h
          · rename_i r0
            simp only [Except.ok.injEq] at h
            rw [← h] at hr
            rcases List.mem_cons.mp hr with hh | hh
            · subst hh
              exact ⟨e, List.mem_cons_self e rest, hpass, hcalc⟩
            · obtain ⟨entry, hmem, hp, hc⟩ := ih hrest r hh
              exact ⟨entry, List.mem_cons_of_mem e hmem, hp, hc⟩
          · simp only [Except.ok.injEq] at h
            rw [← h] at hr
            obtain ⟨entry, hmem, hp, hc⟩ := ih hrest r hr
            exact ⟨entry, List.mem_cons_of_mem e hmem, hp, hc⟩
    · obtain ⟨entry, hmem, hp, hc⟩ := ih h r hr
      exact ⟨entry, List.mem_cons_of_mem e hmem, hp, hc⟩

theorem collectResults_length {fuse : FuseFn} {oracle : RegexOracle} {opts : SearchOptions}
    {nq : JStr} {entries : List BasicIndexEntry} {l : List SearchResult}
    (h : collectResults fuse oracle opts nq entries = .ok l) :
    l.length ≤ entries.length := by
  induction entries generalizing l with
  | nil =>
    unfold collectResults at h
    simp only [Except.ok.injEq] at h
    simp [← h]
  | cons e rest ih =>
    unfold collectResults at h
    split at h
    · split at h
      · exact absurd h (by simp)
      · split at h
        · exact absurd h (by simp)
        · rename_i rest' hrest
          split at h
          · simp only [Except.ok.injEq] at h
            have := ih hrest
            simp [← h]
            omega
          · simp only [Except.ok.injEq] at h
            have := ih hrest
            simp [← h]
            omega
    · have := ih h
      simp only [List.length_cons]
      omega

theorem collectResults_mem_of {fuse : FuseFn} {oracle : RegexOracle} {opts : SearchOptions}
    {nq : JStr} {entries : List BasicIndexEntry} {l : List SearchResult}
    {entry : BasicIndexEntry} {r : SearchResult}
    (he : entry ∈ entries) (hpass : passesFileTypeFilter opts.fileTypes entry.filename = true)
    (hcalc : calculateScore fuse oracle entry nq
      (some (jsOrInt opts.snippetContextSize 60)) (some (jsOrInt opts.maxSnippets 3))
      = .ok (some r))
    (h : collectResults fuse oracle opts nq entries = .ok l) : r ∈ l := by
  induction entries generalizing l with
  | nil => cases he
  | cons e rest ih =>
    unfold collectResults at h
    rcases List.mem_cons.mp he with hh | hh
    · subst hh
      rw [if_pos hpass, hcalc] at h
      split at h
      · exact absurd h (by simp)
      · rename_i r? heq
        have hr? : some r = r? := Except.ok.inj heq
        subst hr?
        split at h
        · exact absurd h (by simp)
        · rename_i rest' hrest
          have h'' : r :: rest' = l := Except.ok.inj h
          rw [← h'']
          exact List.mem_cons_self _ _
    · split at h
      · split at h
        · exact absurd h (by simp)
        · split at h
          · exact absurd h (by simp)
          · rename_i rest' hrest
            split at h
            · simp only [Except.ok.injEq] at h
              rw [← h]
              exact List.mem_cons_of_mem _ (ih hh hrest)
            · simp only [Except.ok.injEq] at h
              rw [← h]
              exact ih hh hrest
      · exact ih hh h

/-- C8: for every index state, matcher, oracle, query and options, a
successful `search` returns a sequence sorted by score descending with ties
broken by `lastModified` descending, of length at most 10. -/
theorem c8_results_sorted_and_capped (fuse : FuseFn) (oracle : RegexOracle)
    (entries : List BasicIndexEntry) (query : JStr) (opts : SearchOptions)
    (l : List SearchHit) (h : searchIdx fuse oracle entries query opts = .ok l) :
    l.length ≤ 10 ∧
    List.Pairwise (fun a b : SearchHit =>
      b.score < a.score ∨ (a.score = b.score ∧ b.lastModified ≤ a.lastModified)) l := by
  rcases searchIdx_ok_elim h with hl | ⟨results, hres, hl⟩
  · subst hl
    simp
  · subst hl
    rw [jsSliceList_zero _ 10 (by omega)]
    constructor
    · simp only [List.length_map, List.length_take]
      have : (10 : Int).toNat = 10 := rfl
      omega
    · have hsorted : List.Pairwise resultLE (List.insertionSort resultLE results) :=
        List.sorted_insertionSort resultLE results
      have htake : List.Pairwise resultLE
          ((List.insertionSort resultLE results).take (10 : Int).toNat) :=
        List.Pairwise.sublist (List.take_sublist _ _) hsorted
      exact List.pairwise_map.mpr (htake.imp (fun hab => hab))

/-- Witness for C8 at a concrete input: a one-entry store and the query
`"test1"` yield a result list of length at most 10, sorted as required. -/
theorem c8_results_sorted_and_capped_witness :
    ∃ l, searchIdx emptyFuse jsRegexCountModel [entryTest1] (js "test1") {} = .ok l ∧
      l.length ≤ 10 ∧
      List.Pairwise (fun a b : SearchHit =>
        b.score < a.score ∨ (a.score = b.score ∧ b.lastModified ≤ a.lastModified)) l :=
  ⟨_, rfl, c8_results_sorted_and_capped emptyFuse jsRegexCountModel [entryTest1]
    (js "test1") {} _ rfl⟩

/-! ## Case analysis of `calculateScore` -/

/-- Every result produced by `calculateScore` copies the entry's fields and
carries one of the six score shapes of the source's branches. -/
theorem calculateScore_ok_some_cases {fuse : FuseFn} {oracle : RegexOracle}
    {entry : BasicIndexEntry} {query : JStr} {scs ms : Option Int} {r : SearchResult}
    (h : calculateScore fuse oracle entry query scs ms = .ok (some r)) :
    r.path = entry.path ∧ r.filename = entry.filename ∧
    ((r.matchType = .exact ∧ r.score = 1) ∨
     (∃ fm ∈ fuse (jsToLower query),
        r.matchType = .fuzzy ∧ r.score = 0.6 + (1 - fm.score) * 0.3) ∨
     (r.matchType = .path ∧ r.score = 0.5) ∨
     (∃ occ : Nat, r.matchType = .content ∧ r.score = min (0.3 + (occ : ℚ) * 0.1) 0.4) ∨
     (∃ mw qw : Nat, r.matchType = .content ∧
        r.score = min (0.2 + ((mw : ℚ) / (qw : ℚ)) * 0.2) 0.35) ∨
     (r.matchType = .content ∧ r.score = 0.15)) := by
  unfold calculateScore at h
  dsimp only at h
  split at h
  · -- exact filename match
    have hr := Option.some.inj (Except.ok.inj h)
    subst hr
    exact ⟨rfl, rfl, Or.inl ⟨rfl, rfl⟩⟩
  · split at h
    · -- fuzzy filename match
      rename_i fm hfind
      have hr := Option.some.inj (Except.ok.inj h)
      subst hr
      exact ⟨rfl, rfl, Or.inr (Or.inl
        ⟨fm, List.mem_of_find?_eq_some hfind, rfl, rfl⟩)⟩
    · split at h
      · -- path contains query
        have hr := Option.some.inj (Except.ok.inj h)
        subst hr
        exact ⟨rfl, rfl, Or.inr (Or.inr (Or.inl ⟨rfl, rfl⟩))⟩
      · split at h
        · -- no content: `.ok none`
          exact absurd (Except.ok.inj h) (by simp)
        · split at h
          · -- extractSnippets raised
            exact absurd h (by simp)
          · rename_i snippets hsnip
            split at h
            · -- content contains the query: occurrence counting
              split at h
              · exact absurd h (by simp)
              · rename_i occ hocc
                have hr := Option.some.inj (Except.ok.inj h)
                subst hr
                exact ⟨rfl, rfl, Or.inr (Or.inr (Or.inr (Or.inl ⟨occ, rfl, rfl⟩)))⟩
            · split at h
              · -- word-level containment
                have hr := Option.some.inj (Except.ok.inj h)
                subst hr
                refine ⟨rfl, rfl, Or.inr (Or.inr (Or.inr (Or.inr (Or.inl ?_))))⟩
                exact ⟨_, _, rfl, rfl⟩
              · split at h
                · -- representative snippets at 0.15
                  have hr := Option.some.inj (Except.ok.inj h)
                  subst hr
                  exact ⟨rfl, rfl, Or.inr (Or.inr (Or.inr (Or.inr (Or.inr ⟨rfl, rfl⟩))))⟩
                · exact absurd (Except.ok.inj h) (by simp)

/-- When the lower-cased filename minus its extension equals the query,
`calculateScore` returns the exact match at score 1 outright. -/
theorem calculateScore_exact {fuse : FuseFn} {oracle : RegexOracle}
    {entry : BasicIndexEntry} {query : JStr} {scs ms : Option Int}
    (hstrip : jsSubstring (jsToLower entry.filename) 0
        (jsLastIndexOfChar (jsToLower entry.filename) '.') = jsToLower query) :
    calculateScore fuse oracle entry query scs ms = .ok (some (mkResult entry 1 .exact none)) := by
  unfold calculateScore
  dsimp only
  rw [if_pos hstrip]

/-! ## Score bands (C1) -/

theorem bands_of_cases {fuse : FuseFn} {query : JStr} {mt : MatchType} {score : ℚ}
    (hfuse : ∀ q fr, fr ∈ fuse q → 0 ≤ fr.score ∧ fr.score ≤ fuseThreshold)
    (hcases :
      (mt = .exact ∧ score = 1) ∨
      (∃ fm ∈ fuse (jsToLower query), mt = .fuzzy ∧ score = 0.6 + (1 - fm.score) * 0.3) ∨
      (mt = .path ∧ score = 0.5) ∨
      (∃ occ : Nat, mt = .content ∧ score = min (0.3 + (occ : ℚ) * 0.1) 0.4) ∨
      (∃ mw qw : Nat, mt = .content ∧ score = min (0.2 + ((mw : ℚ) / (qw : ℚ)) * 0.2) 0.35) ∨
      (mt = .content ∧ score = 0.15)) :
    scoreBandsOf mt score := by
  rcases hcases with ⟨hmt, hs⟩ | ⟨fm, hfm, hmt, hs⟩ | ⟨hmt, hs⟩ | ⟨occ, hmt, hs⟩
    | ⟨mw, qw, hmt, hs⟩ | ⟨hmt, hs⟩
  · subst hmt; subst hs
    simp [scoreBandsOf]
  · subst hmt; subst hs
    obtain ⟨h0, ht⟩ := hfuse (jsToLower query) fm hfm
    have ht' : fm.score ≤ 0.4 := ht
    simp only [scoreBandsOf]
    refine ⟨(by intro hx; cases hx), fun _ => ⟨by nlinarith, by nlinarith⟩,
      (by intro hx; cases hx), (by intro hx; cases hx)⟩
  · subst hmt; subst hs
    simp [scoreBandsOf]
  · subst hmt; subst hs
    have h0 : (0 : ℚ) ≤ (occ : ℚ) := Nat.cast_nonneg occ
    simp only [scoreBandsOf]
    refine ⟨(by intro hx; cases hx), (by intro hx; cases hx), (by intro hx; cases hx),
      fun _ => ⟨le_min (by nlinarith) (by norm_num), min_le_right _ _⟩⟩
  · subst hmt; subst hs
    have h0 : (0 : ℚ) ≤ (mw : ℚ) / (qw : ℚ) :=
      div_nonneg (Nat.cast_nonneg mw) (Nat.cast_nonneg qw)
    simp only [scoreBandsOf]
    refine ⟨(by intro hx; cases hx), (by intro hx; cases hx), (by intro hx; cases hx),
      fun _ => ⟨le_min (by nlinarith) (by norm_num), ?_⟩⟩
    calc min (0.2 + ((mw : ℚ) / (qw : ℚ)) * 0.2) 0.35 ≤ 0.35 := min_le_right _ _
      _ ≤ 0.4 := by norm_num
  · subst hmt; subst hs
    simp only [scoreBandsOf]
    refine ⟨(by intro hx; cases hx), (by intro hx; cases hx), (by intro hx; cases hx),
      fun _ => ⟨by norm_num, by norm_num⟩⟩

theorem bands_rank_ordering {mt1 mt2 : MatchType} {s1 s2 : ℚ}
    (h1 : scoreBandsOf mt1 s1) (h2 : scoreBandsOf mt2 s2)
    (hrank : mtRank mt2 < mtRank mt1) : s2 < s1 := by
  obtain ⟨he1, hf1, hp1, hc1⟩ := h1
  obtain ⟨he2, hf2, hp2, hc2⟩ := h2
  cases mt1 <;> cases mt2 <;> simp only [mtRank] at hrank <;> try omega
  · rw [he1 rfl]; have := hf2 rfl; linarith [this.2]
  · rw [he1 rfl, hp2 rfl]; norm_num
  · rw [he1 rfl]; have := hc2 rfl; linarith [this.2]
  · have ha := hf1 rfl; rw [hp2 rfl]; linarith [ha.1]
  · have ha := hf1 rfl; have hb := hc2 rfl; linarith [ha.1, hb.2]
  · rw [hp1 rfl]; have := hc2 rfl; linarith [this.2]

/-- C1: in every successful `search`, each result's score lies in the fixed
band of its `matchType` — `exact` at 1.0, `fuzzy` in (0.6, 0.9], `path` at
0.5, `content` in [0.15, 0.4] — provided the Fuse matcher honours its
configured threshold (`0 ≤ score ≤ 0.4`); hence for any two results the
priority order `exact > fuzzy > path > content` always holds score-wise. -/
theorem c1_score_bands (fuse : FuseFn) (oracle : RegexOracle)
    (entries : List BasicIndexEntry) (query : JStr) (opts : SearchOptions)
    (l : List SearchHit)
    (hfuse : ∀ q fr, fr ∈ fuse q → 0 ≤ fr.score ∧ fr.score ≤ fuseThreshold)
    (h : searchIdx fuse oracle entries query opts = .ok l) :
    (∀ r ∈ l, scoreBandsOf r.matchType r.score) ∧
    (∀ r1 ∈ l, ∀ r2 ∈ l, mtRank r2.matchType < mtRank r1.matchType → r2.score < r1.score) := by
  have hbands : ∀ r ∈ l, scoreBandsOf r.matchType r.score := by
    intro r hr
    rcases searchIdx_ok_elim h with hl | ⟨results, hres, hl⟩
    · subst hl; cases hr
    · subst hl
      obtain ⟨res, hres_mem, hmap⟩ := List.mem_map.mp hr
      rw [jsSliceList_zero _ 10 (by omega)] at hres_mem
      have hsort : res ∈ List.insertionSort resultLE results :=
        (List.take_sublist _ _).subset hres_mem
      have hmem : res ∈ results := (List.mem_insertionSort resultLE).mp hsort
      obtain ⟨entry, -, -, hcalc⟩ := collectResults_mem hres res hmem
      obtain ⟨-, -, hcases⟩ := calculateScore_ok_some_cases hcalc
      have : scoreBandsOf res.matchType res.score := bands_of_cases hfuse hcases
      rw [← hmap]
      exact this
  exact ⟨hbands, fun r1 h1 r2 h2 hrank =>
    bands_rank_ordering (hbands r1 h1) (hbands r2 h2) hrank⟩

/-- Witness for C1 at a concrete input: the empty matcher trivially honours
the threshold, and the query `"test1"` over a one-entry store returns
results whose bands and ordering the theorem certifies. -/
theorem c1_score_bands_witness :
    ∃ l, searchIdx emptyFuse jsRegexCountModel [entryTest1] (js "test1") {} = .ok l ∧
      (∀ r ∈ l, scoreBandsOf r.matchType r.score) ∧
      (∀ r1 ∈ l, ∀ r2 ∈ l, mtRank r2.matchType < mtRank r1.matchType → r2.score < r1.score) :=
  ⟨_, rfl, c1_score_bands emptyFuse jsRegexCountModel [entryTest1] (js "test1") {} _
    (fun q fr hfr => absurd hfr (List.not_mem_nil fr)) rfl⟩

/-! ## Idempotence of lower-casing; the normalized query is a fixpoint -/

theorem toLower_toLower (c : Char) : c.toLower.toLower = c.toLower := by
  by_cases h : c.toNat ≥ 65 ∧ c.toNat ≤ 90
  · have h1 : c.toLower = Char.ofNat (c.toNat + 32) := by
      unfold Char.toLower
      rw [if_pos h]
    have hv : (c.toNat + 32).isValidChar := Or.inl (by omega)
    have ht := toNat_charOfNat_valid hv
    rw [h1]
    unfold Char.toLower
    rw [if_neg (by rw [ht]; omega)]
  · have h1 : c.toLower = c := by
      unfold Char.toLower
      rw [if_neg h]
    rw [h1, h1]

theorem jsToLower_idem (s : JStr) : jsToLower (jsToLower s) = jsToLower s := by
  simp [jsToLower, List.map_map, Function.comp_def, toLower_toLower]

theorem jsToLower_normalized_fix (q : JStr) :
    jsToLower (jsTrim (jsToLower q)) = jsTrim (jsToLower q) := by
  rw [jsTrim_jsToLower q, jsToLower_idem]

/-! ## C4: exact filename matching -/

/-- C4 (amended): for an indexed entry whose lower-cased filename *minus the
part from its last `'.'`* equals the normalized query (which has at least 2
significant characters), the entry is scored `exact` with score exactly 1.0,
and — whenever it passes the file-type filter and at most 10 entries are
indexed, so that the result cannot be cut by the cap — `search` returns
that entry as an `exact` match at 1.0; moreover every returned result for
that entry's path is `exact` at 1.0.  For a filename with no extension
separator the stripped name is computed as the **empty string**
(`substring(0, -1)`), so such an entry never matches exactly (see the
counterexample). -/
theorem c4_exact_match_returned (fuse : FuseFn) (oracle : RegexOracle)
    (entries : List BasicIndexEntry) (query : JStr) (opts : SearchOptions)
    (l : List SearchHit) (entry : BasicIndexEntry)
    (hmem : entry ∈ entries)
    (hnodup : (entries.map (fun e => e.path)).Nodup)
    (hstrip : jsSubstring (jsToLower entry.filename) 0
        (jsLastIndexOfChar (jsToLower entry.filename) '.') = jsTrim (jsToLower query))
    (hlen : 2 ≤ (jsTrim (jsToLower query)).length)
    (hpass : passesFileTypeFilter opts.fileTypes entry.filename = true)
    (hsize : entries.length ≤ 10)
    (h : searchIdx fuse oracle entries query opts = .ok l) :
    (∃ r ∈ l, r.path = entry.path ∧ r.matchType = .exact ∧ r.score = 1) ∧
    (∀ r ∈ l, r.path = entry.path → r.matchType = .exact ∧ r.score = 1) := by
  have hstrip' : jsSubstring (jsToLower entry.filename) 0
      (jsLastIndexOfChar (jsToLower entry.filename) '.')
      = jsToLower (jsTrim (jsToLower query)) := by
    rw [jsToLower_normalized_fix]
    exact hstrip
  have hcalc := @calculateScore_exact fuse oracle entry (jsTrim (jsToLower query))
    (some (jsOrInt opts.snippetContextSize 60)) (some (jsOrInt opts.maxSnippets 3)) hstrip'
  rcases searchIdx_ok_elim h with hl | ⟨results, hres, hl⟩
  · -- the guard cannot have fired: the normalized query has length ≥ 2
    exfalso
    have hne : jsTrim (jsToLower query) ≠ [] := by
      intro hnil
      rw [hnil] at hlen
      simp at hlen
    unfold searchIdx at h
    dsimp only at h
    rw [if_neg (by
      simp only [Bool.or_eq_true, List.isEmpty_eq_true, decide_eq_true_eq]
      push_neg
      exact ⟨hne, by omega⟩)] at h
    subst hl
    split at h
    · exact absurd h (by simp)
    · rename_i results hres
      have hl' := Except.ok.inj h
      have hrmem : mkResult entry 1 .exact none ∈ results :=
        collectResults_mem_of hmem hpass hcalc hres
      have hsort : mkResult entry 1 .exact none ∈ List.insertionSort resultLE results :=
        (List.mem_insertionSort resultLE).mpr hrmem
      have hlen10 : (List.insertionSort resultLE results).length ≤ 10 :=
        le_trans (le_of_eq (List.perm_insertionSort resultLE results).length_eq)
          (le_trans (collectResults_length hres) hsize)
      have hmem10 : stripContent (mkResult entry 1 .exact none)
          ∈ (jsSliceList (List.insertionSort resultLE results) 0 10).map stripContent := by
        rw [jsSliceList_zero _ 10 (by omega), show (10 : Int).toNat = 10 from rfl,
          List.take_of_length_le hlen10]
        exact List.mem_map_of_mem stripContent hsort
      rw [hl'] at hmem10
      cases hmem10
  · subst hl
    constructor
    · -- existence
      have hrmem : mkResult entry 1 .exact none ∈ results :=
        collectResults_mem_of hmem hpass hcalc hres
      have hsort : mkResult entry 1 .exact none ∈ List.insertionSort resultLE results :=
        (List.mem_insertionSort resultLE).mpr hrmem
      have hlen10 : (List.insertionSort resultLE results).length ≤ 10 :=
        le_trans (le_of_eq (List.perm_insertionSort resultLE results).length_eq)
          (le_trans (collectResults_length hres) hsize)
      refine ⟨stripContent (mkResult entry 1 .exact none), ?_, rfl, rfl, rfl⟩
      rw [jsSliceList_zero _ 10 (by omega), show (10 : Int).toNat = 10 from rfl,
        List.take_of_length_le hlen10]
      exact List.mem_map_of_mem stripContent hsort
    · -- every result for this path is the exact one
      intro r hr hpath
      obtain ⟨res, hres_mem, hmap⟩ := List.mem_map.mp hr
      rw [jsSliceList_zero _ 10 (by omega)] at hres_mem
      have hmemres : res ∈ results :=
        (List.mem_insertionSort resultLE).mp ((List.take_sublist _ _).subset hres_mem)
      obtain ⟨e', he'mem, -, hcalc'⟩ := collectResults_mem hres res hmemres
      obtain ⟨hp, -, -⟩ := calculateScore_ok_some_cases hcalc'
      have hpath' : res.path = entry.path := by
        rw [← hmap] at hpath
        simpa [stripContent] using hpath
      have hpe : e'.path = entry.path := by
        rw [← hp]
        exact hpath'
      have he'entry : e' = entry :=
        List.inj_on_of_nodup_map hnodup he'mem hmem hpe
      rw [he'entry] at hcalc'
      rw [hcalc] at hcalc'
      have : some (mkResult entry 1 .exact none) = some res := Except.ok.inj hcalc'
      have hres_eq : mkResult entry 1 .exact none = res := Option.some.inj this
      rw [← hmap, ← hres_eq]
      exact ⟨rfl, rfl⟩

/-- Witness for C4 at a concrete input: `test1.txt` and the query
`"test1"`, with the entry passing the non-empty file-type filter
`["txt"]`. -/
theorem c4_exact_match_returned_witness :
    ∃ l, searchIdx emptyFuse jsRegexCountModel [entryTest1] (js "test1")
        { fileTypes := some [js "txt"] } = .ok l ∧
      (∃ r ∈ l, r.path = entryTest1.path ∧ r.matchType = .exact ∧ r.score = 1) ∧
      (∀ r ∈ l, r.path = entryTest1.path → r.matchType = .exact ∧ r.score = 1) :=
  ⟨_, rfl,
    c4_exact_match_returned emptyFuse jsRegexCountModel [entryTest1] (js "test1")
      { fileTypes := some [js "txt"] } _
      entryTest1 (List.mem_singleton.mpr rfl) (by simp) (by decide) (by decide)
      (by decide) (by decide) rfl⟩

/-- Counterexample to C4 as stated: the filename `readme` contains no
extension separator; its extension-stripped form is computed as
`substring(0, lastIndexOf('.')) = substring(0, -1) = ""`, so the query
`"readme"` does not match it exactly — indeed `search` returns no result at
all for it (no fuzzy candidates, the path without the filename is `"/p/"`,
and there is no content), contradicting "including for filenames that
contain no extension separator at all". -/
theorem c4_counterexample :
    jsSubstring (jsToLower entryReadme.filename) 0
        (jsLastIndexOfChar (jsToLower entryReadme.filename) '.') = [] ∧
    jsTrim (jsToLower (js "readme")) = jsToLower entryReadme.filename ∧
    searchIdx emptyFuse jsRegexCountModel [entryReadme] (js "readme") {} = .ok [] := by
  refine ⟨by decide, by decide, rfl⟩

/-! ## C5: file-type filtering -/

theorem collectResults_fileTypes_empty (fuse : FuseFn) (oracle : RegexOracle)
    (opts : SearchOptions) (nq : JStr) (entries : List BasicIndexEntry) :
    collectResults fuse oracle { opts with fileTypes := some [] } nq entries
      = collectResults fuse oracle { opts with fileTypes := none } nq entries := by
  induction entries with
  | nil => rfl
  | cons e rest ih =>
    unfold collectResults
    dsimp only
    rw [if_pos (by simp [passesFileTypeFilter]), if_pos (by simp [passesFileTypeFilter]), ih]

/-- C5 (amended): file-type filtering is case-insensitive on the *entry*
side only.  If `options.fileTypes` is empty or absent, no entry is
excluded (`search` behaves identically for `some []` and `none`); if it is
non-empty, an entry appears in the results only if its lower-cased
extension (without the leading dot) is an **exact** member of `fileTypes` —
so list members written in lower case are matched case-insensitively
against filenames, but a `fileTypes` member containing an upper-case letter
never matches any entry (see the counterexample). -/
theorem c5_filetype_filter (fuse : FuseFn) (oracle : RegexOracle) :
    (∀ (entries : List BasicIndexEntry) (query : JStr) (opts : SearchOptions),
      searchIdx fuse oracle entries query { opts with fileTypes := some [] }
        = searchIdx fuse oracle entries query { opts with fileTypes := none }) ∧
    (∀ (entries : List BasicIndexEntry) (query : JStr) (opts : SearchOptions)
        (fts : List JStr) (l : List SearchHit),
      opts.fileTypes = some fts → fts ≠ [] →
      searchIdx fuse oracle entries query opts = .ok l →
      ∀ r ∈ l, (jsToLower (jsExtname r.filename)).drop 1 ∈ fts) := by
  constructor
  · intro entries query opts
    unfold searchIdx
    dsimp only
    rw [collectResults_fileTypes_empty]
  · intro entries query opts fts l hft hne h r hr
    rcases searchIdx_ok_elim h with hl | ⟨results, hres, hl⟩
    · subst hl
      cases hr
    · subst hl
      obtain ⟨res, hres_mem, hmap⟩ := List.mem_map.mp hr
      rw [jsSliceList_zero _ 10 (by omega)] at hres_mem
      have hmemres : res ∈ results :=
        (List.mem_insertionSort resultLE).mp ((List.take_sublist _ _).subset hres_mem)
      obtain ⟨entry, -, hpass, hcalc⟩ := collectResults_mem hres res hmemres
      obtain ⟨-, hfn, -⟩ := calculateScore_ok_some_cases hcalc
      have h0 : 0 < fts.length := List.length_pos.mpr hne
      rw [hft] at hpass
      simp only [passesFileTypeFilter] at hpass
      rw [if_pos h0] at hpass
      have hmemext : (jsToLower (jsExtname entry.filename)).drop 1 ∈ fts := by
        simpa using hpass
      have hfn' : r.filename = entry.filename := by
        rw [← hmap]
        exact hfn
      rw [hfn']
      exact hmemext

/-- Witness for C5 at a concrete input: an empty `fileTypes` list behaves
as no filter, and with `fileTypes = ["txt"]` every returned result's
lower-cased extension is a member of the list. -/
theorem c5_filetype_filter_witness :
    searchIdx emptyFuse jsRegexCountModel [entryTest1] (js "test1")
        { ({} : SearchOptions) with fileTypes := some [] }
      = searchIdx emptyFuse jsRegexCountModel [entryTest1] (js "test1")
        { ({} : SearchOptions) with fileTypes := none } ∧
    ∃ l, searchIdx emptyFuse jsRegexCountModel [entryTest1] (js "test1")
        { fileTypes := some [js "txt"] } = .ok l ∧
      ∀ r ∈ l, (jsToLower (jsExtname r.filename)).drop 1 ∈ [js "txt"] :=
  ⟨(c5_filetype_filter emptyFuse jsRegexCountModel).1 [entryTest1] (js "test1") {},
   ⟨_, rfl, (c5_filetype_filter emptyFuse jsRegexCountModel).2 [entryTest1] (js "test1")
      { fileTypes := some [js "txt"] } [js "txt"] _ rfl (by simp) rfl⟩⟩

/-- Counterexample to C5 as stated: the same query over the same store
returns the `test1.txt` entry when `fileTypes = ["txt"]` but no results at
all when `fileTypes = ["TXT"]`, although the two lists are equal up to
letter case — the filtering is **not** case-insensitive in the letter case
used in the `fileTypes` list. -/
theorem c5_counterexample :
    jsToLower (js "TXT") = js "txt" ∧
    searchIdx emptyFuse jsRegexCountModel [entryTest1] (js "test1")
        { fileTypes := some [js "txt"] }
      = .ok [{ path := js "/downloads/test1.txt", filename := js "test1.txt",
               lastModified := 100, size := 1000, score := 1, matchType := .exact,
               snippets := none }] ∧
    searchIdx emptyFuse jsRegexCountModel [entryTest1] (js "test1")
        { fileTypes := some [js "TXT"] } = .ok [] := by
  refine ⟨by decide, rfl, rfl⟩

/-! ## C9: snippet de-duplication, sorting and truncation -/

theorem jsSubstring_zero_len (s : JStr) : jsSubstring s 0 (s.length : Int) = s := by
  show (s.drop (min (min (max 0 0) (s.length : Int))
      (min (max (s.length : Int) 0) (s.length : Int))).toNat).take
    ((max (min (max 0 0) (s.length : Int)) (min (max (s.length : Int) 0) (s.length : Int))
      - min (min (max 0 0) (s.length : Int))
          (min (max (s.length : Int) 0) (s.length : Int))).toNat) = s
  have hlen : (0 : Int) ≤ (s.length : Int) := Int.natCast_nonneg _
  have h1 : max (0 : Int) 0 = 0 := by omega
  have h2 : max (s.length : Int) 0 = (s.length : Int) := by omega
  rw [h1, h2, min_eq_left hlen, min_self, min_eq_left hlen, max_eq_right hlen]
  simp

theorem ne_nil_of_trim {s : JStr} (h : (jsTrim s).length ≠ 0) : s ≠ [] := by
  intro hs
  rw [hs] at h
  exact h rfl

theorem dots_append_ne_nil (x : JStr) : dots ++ x ≠ [] := by simp [dots]

theorem append_dots_ne_nil (x : JStr) : x ++ dots ≠ [] := by simp [dots]

theorem exactPassF_text_ne_nil (oracle : RegexOracle) (content nc query : JStr) (cs : Int)
    (hcontent : content ≠ []) :
    ∀ (fuel start : Nat) (ms : List SnippetMatch),
      exactPassF oracle content nc query cs start fuel = .ok ms →
      ∀ m ∈ ms, m.text ≠ [] := by
  intro fuel
  induction fuel with
  | zero =>
    intro start ms h m hm
    have : ([] : List SnippetMatch) = ms := Except.ok.inj h
    rw [← this] at hm
    cases hm
  | succ fuel ih =>
    intro start ms h m hm
    simp only [exactPassF] at h
    split at h
    · have : ([] : List SnippetMatch) = ms := Except.ok.inj h
      rw [← this] at hm
      cases hm
    · split at h
      · have : ([] : List SnippetMatch) = ms := Except.ok.inj h
        rw [← this] at hm
        cases hm
      · rename_i idx hidx
        split at h
        · exact absurd h (by simp)
        · rename_i termCount horacle
          split at h
          · exact absurd h (by simp)
          · rename_i rest hrest
            have hcons := Except.ok.inj h
            rw [← hcons] at hm
            rcases List.mem_cons.mp hm with hh | hh
            · subst hh
              dsimp only
              split
              · exact append_dots_ne_nil _
              · rename_i hse
                split
                · exact dots_append_ne_nil _
                · rename_i hss
                  have h1 : max (0 : Int) ((idx : Int) - cs) = 0 := by
                    have := le_max_left (0 : Int) ((idx : Int) - cs)
                    omega
                  have h2 : min (content.length : Int) ((idx : Int) + (query.length : Int) + cs)
                      = (content.length : Int) := by
                    have := min_le_left (content.length : Int)
                      ((idx : Int) + (query.length : Int) + cs)
                    omega
                  rw [h1, h2, jsSubstring_zero_len]
                  exact hcontent
            · exact ih (idx + query.length) rest hrest m hh

theorem snippet_window_ne_nil (s : JStr) (hs : s ≠ []) (a b : Int) :
    (if min (s.length : Int) b < (s.length : Int)
      then (if 0 < max 0 a then dots ++ jsSubstring s (max 0 a) (min (s.length : Int) b)
            else jsSubstring s (max 0 a) (min (s.length : Int) b)) ++ dots
      else (if 0 < max 0 a then dots ++ jsSubstring s (max 0 a) (min (s.length : Int) b)
            else jsSubstring s (max 0 a) (min (s.length : Int) b))) ≠ [] := by
  split
  · exact append_dots_ne_nil _
  · rename_i hse
    split
    · exact dots_append_ne_nil _
    · rename_i hss
      have h1 : max (0 : Int) a = 0 := by
        have := le_max_left (0 : Int) a
        omega
      have h2 : min (s.length : Int) b = (s.length : Int) := by
        have := min_le_left (s.length : Int) b
        omega
      rw [h1, h2, jsSubstring_zero_len]
      exact hs

theorem paraSnippet_text_ne_nil {queryWords : List JStr} {nParas : Nat} {cs : Int}
    {i : Nat} {para : JStr} {m : SnippetMatch}
    (h : paraSnippet queryWords nParas cs i para = some m) : m.text ≠ [] := by
  unfold paraSnippet at h
  split at h
  · exact absurd h (by simp)
  · rename_i htrim
    dsimp only at h
    split at h
    · exact absurd h (by simp)
    · have hpara : para ≠ [] := ne_nil_of_trim (by simpa using htrim)
      have hm := Option.some.inj h
      rw [← hm]
      dsimp only
      split
      · rename_i hlong
        exact snippet_window_ne_nil para hpara _ _
      · exact hpara

theorem snd_mem_of_mem_enumFrom {α : Type} {p : Nat × α} :
    ∀ {l : List α} {n : Nat}, p ∈ l.enumFrom n → p.2 ∈ l := by
  intro l
  induction l with
  | nil => intro n h; cases h
  | cons a rest ih =>
    intro n h
    rcases List.mem_cons.mp h with hh | hh
    · rw [hh]
      exact List.mem_cons_self _ _
    · exact List.mem_cons_of_mem _ (ih hh)

theorem snd_mem_of_mem_enum {α : Type} {p : Nat × α} {l : List α}
    (h : p ∈ l.enum) : p.2 ∈ l :=
  snd_mem_of_mem_enumFrom h

theorem fallbackSnippets_text_ne_nil {content : JStr} {cs : Int} {m : SnippetMatch}
    (hm : m ∈ fallbackSnippets content cs) : m.text ≠ [] := by
  unfold fallbackSnippets at hm
  obtain ⟨p, hp, hmap⟩ := List.mem_map.mp hm
  have hsec : p.2 ∈ jsSliceList ((splitParas content).filter (fun s => 0 < (jsTrim s).length))
      0 (min 3 (((splitParas content).filter (fun s => 0 < (jsTrim s).length)).length : Int)) :=
    snd_mem_of_mem_enum hp
  have hsec' : p.2 ∈ (splitParas content).filter (fun s => 0 < (jsTrim s).length) := by
    have hsub : ∀ (l : List JStr) (a b : Int), ∀ x ∈ jsSliceList l a b, x ∈ l := by
      intro l a b x hx
      unfold jsSliceList at hx
      dsimp only at hx
      exact (List.drop_sublist _ _).subset ((List.take_sublist _ _).subset hx)
    exact hsub _ _ _ _ hsec
  have htrim : 0 < (jsTrim p.2).length := by
    have := List.of_mem_filter hsec'
    simpa using this
  have hpara : p.2 ≠ [] := ne_nil_of_trim (by omega)
  rw [← hmap]
  show (if (cs * 2 : Int) < (p.2.length : Int) then jsSubstring p.2 0 (cs * 2) ++ dots
      else p.2) ≠ []
  split
  · exact append_dots_ne_nil _
  · exact hpara

theorem snippetCandidates_text_ne_nil {oracle : RegexOracle} {content query : JStr}
    {ms cs : Int} {cands : List SnippetMatch}
    (hc : (jsTrim content).length ≠ 0)
    (h : snippetCandidates oracle content query ms cs = .ok cands) :
    ∀ m ∈ cands, m.text ≠ [] := by
  have hcontent : content ≠ [] := ne_nil_of_trim hc
  have hsplit : ∀ {c : Prop} {dc : Decidable c} (a b : List SnippetMatch),
      ∀ m' ∈ (if c then a ++ b else a), m' ∈ a ∨ m' ∈ b := by
    intro c dc a b m' hm'
    split at hm'
    · exact List.mem_append.mp hm'
    · exact Or.inl hm'
  intro m hm
  unfold snippetCandidates at h
  split at h
  · exact absurd h (by simp)
  · rename_i tier1 htier1
    have htier1ne : ∀ m' ∈ tier1, m'.text ≠ [] :=
      exactPassF_text_ne_nil oracle content (jsToLower content) query cs hcontent
        ((jsToLower content).length + 1) 0 tier1 htier1
    have hcands := Except.ok.inj h
    rw [← hcands] at hm
    rcases hsplit _ _ _ hm with hm' | hm'
    · rcases hsplit _ _ _ hm' with hh | hh
      · exact htier1ne m hh
      · unfold paraPass at hh
        obtain ⟨p, -, hp⟩ := List.mem_filterMap.mp hh
        exact paraSnippet_text_ne_nil hp
    · exact fallbackSnippets_text_ne_nil hm'

theorem isDuplicateOf_eq_spec {cs : Int} {e m : SnippetMatch}
    (he : e.text ≠ []) (hm : m.text ≠ []) :
    isDuplicateOf cs e m = specIsDuplicate cs e m := by
  unfold isDuplicateOf specIsDuplicate
  have h1 : decide (0 < e.text.length) = true := decide_eq_true (List.length_pos.mpr he)
  have h2 : decide (0 < m.text.length) = true := decide_eq_true (List.length_pos.mpr hm)
  rw [h1, h2]
  simp only [Bool.and_true, Bool.true_and]

theorem any_congr_of_mem {α : Type} {l : List α} {f g : α → Bool}
    (h : ∀ a ∈ l, f a = g a) : l.any f = l.any g := by
  induction l with
  | nil => rfl
  | cons a rest ih =>
    simp only [List.any_cons, h a (List.mem_cons_self a rest),
      ih (fun a' ha' => h a' (List.mem_cons_of_mem _ ha'))]

theorem dedupAux_eq_spec {cs : Int} :
    ∀ (ms kept : List SnippetMatch),
      (∀ e ∈ kept, e.text ≠ []) → (∀ m ∈ ms, m.text ≠ []) →
      dedupSnippetsAux cs kept ms = specDedupAux cs kept ms := by
  intro ms
  induction ms with
  | nil => intro kept _ _; rfl
  | cons m rest ih =>
    intro kept hkept hms
    have hmtext : m.text ≠ [] := hms m (List.mem_cons_self m rest)
    have hrest : ∀ m' ∈ rest, m'.text ≠ [] := fun m' hm' => hms m' (List.mem_cons_of_mem _ hm')
    have hany : (kept.any fun e => isDuplicateOf cs e m)
        = (kept.any fun e => specIsDuplicate cs e m) :=
      any_congr_of_mem (fun e he => isDuplicateOf_eq_spec (hkept e he) hmtext)
    unfold dedupSnippetsAux specDedupAux
    rw [hany]
    split
    · exact ih kept hkept hrest
    · refine ih (kept ++ [m]) ?_ hrest
      intro e he
      rcases List.mem_append.mp he with hh | hh
      · exact hkept e hh
      · rw [List.mem_singleton.mp hh]
        exact hmtext

theorem dedupSnippets_eq_spec {cs : Int} {ms : List SnippetMatch}
    (h : ∀ m ∈ ms, m.text ≠ []) : dedupSnippets cs ms = specDedup cs ms :=
  dedupAux_eq_spec ms [] (by intro e he; cases he) h

/-- C9: for real (non-whitespace) content, `extractSnippets` applies to its
candidate snippets exactly the spec's pipeline — first-survivor
de-duplication under the spec's duplicate test (identical text, or
positions within `contextSize/2` with one text a substring of the other),
then a sort by score descending, then truncation to `maxSnippets`.  The
source's extra "both texts non-empty" conjunct is invisible because every
candidate's text is non-empty. -/
theorem c9_snippet_dedup_sort_truncate (oracle : RegexOracle) (content query : JStr)
    (ms cs : Int) (cands : List SnippetMatch)
    (hc : (jsTrim content).length ≠ 0)
    (h : snippetCandidates oracle content query ms cs = .ok cands) :
    dedupSnippets cs cands = specDedup cs cands ∧
    extractSnippets oracle content query ms cs
      = .ok (jsSliceList (List.insertionSort snLe (specDedup cs cands)) 0 ms) := by
  have htexts := snippetCandidates_text_ne_nil hc h
  have hd := @dedupSnippets_eq_spec cs cands htexts
  refine ⟨hd, ?_⟩
  have hcontent := ne_nil_of_trim hc
  unfold extractSnippets
  rw [if_neg (by
    simp only [Bool.or_eq_true, List.isEmpty_eq_true, decide_eq_true_eq]
    push_neg
    exact ⟨hcontent, hc⟩)]
  rw [h]
  dsimp only
  rw [hd]

/-- Witness for C9 at a concrete input: the content `"hello world"` and the
query `"hello"` produce an exact-phrase candidate and a paragraph
candidate; the de-duplicated, sorted, truncated output matches the
spec-worded pipeline. -/
theorem c9_snippet_dedup_sort_truncate_witness :
    ∃ cands, snippetCandidates jsRegexCountModel (js "hello world") (js "hello") 3 60
        = .ok cands ∧
      (dedupSnippets 60 cands = specDedup 60 cands ∧
       extractSnippets jsRegexCountModel (js "hello world") (js "hello") 3 60
        = .ok (jsSliceList (List.insertionSort snLe (specDedup 60 cands)) 0 3)) :=
  ⟨_, rfl, c9_snippet_dedup_sort_truncate jsRegexCountModel (js "hello world") (js "hello")
    3 60 _ (by decide) rfl⟩
